import Mathlib

/-!
# Verification of the CTI-Dashboard IOC aggregation and scoring core

Shallow embedding of the IOC (indicator of compromise) aggregation engine:

* `services/threat_intel.py` — `normalize_threat_score`, `_classify_threat_score`,
  and the cache-freshness decision of `lookup_ioc`;
* `services/database.py` — `store_ioc` (upsert-with-merge over the `iocs`
  collection), `get_ioc`, `update_ioc_tags`;
* `services/realtime_feeds.py` — the per-cycle observation loop of
  `_simulate_threat_detection` / `_monitor_threats`.

Python numbers that flow through the scoring pipeline are modelled as `ℚ`
(all the arithmetic involved — division, multiplication by 100, `min`, `max`,
comparisons — is exact on the values the claims mention).  Timestamps are
modelled as whole seconds (`ℕ`).  The MongoDB `iocs` collection is modelled as
an insertion-ordered list of records; `find_one` returns the first match and
`update_one` rewrites that record in place, which is exactly how the
single-collection queries of `database.py` behave.
-/

set_option autoImplicit false

namespace CTI

/-- One entry of a record's `source_details` list: the per-source observation
snapshot built by `lookup_ioc` / the feed generators (`source`,
`threat_score`, `classification`; the free-form `details` bag carries no
information the claims touch and is omitted). -/
structure SourceDetail where
  source : String
  threat_score : ℚ
  classification : String
deriving DecidableEq, Repr

/-- The `ioc_data` dictionary passed to `DatabaseService.store_ioc`: one
observation about one indicator, as built by `lookup_ioc`
(threat_intel.py lines 189-197) or by the feed generators
(realtime_feeds.py). -/
structure Obs where
  value : String
  type : String
  threat_score : ℚ
  classification : String
  sources : List String
  tags : List String
  source_details : List SourceDetail
  description : String
deriving DecidableEq, Repr

/-- A canonical IOC document stored in the `iocs` collection.  `timestamp` is
the creation time (`first seen`), `last_seen` the merge time; both are
whole seconds. -/
structure Record where
  value : String
  type : String
  threat_score : ℚ
  classification : String
  sources : List String
  tags : List String
  source_details : List SourceDetail
  description : String
  timestamp : ℕ
  last_seen : ℕ
deriving DecidableEq, Repr

/-- The `iocs` collection, in insertion order. -/
abbrev Db := List Record

/-- Key match used by `store_ioc` / `get_ioc`: equality on
`(value, type)`. -/
def keyMatch (r : Record) (v k : String) : Bool :=
  r.value == v && r.type == k

/-- `DatabaseService.get_ioc` (database.py lines 44-46):
`find_one({"value": value, "type": ioc_type})`, i.e. the first record of the
collection with that key. -/
def get_ioc (db : Db) (v k : String) : Option Record :=
  db.find? (fun r => keyMatch r v k)

/-- The update branch of `store_ioc` (database.py lines 27-35): `$set` of
exactly three fields — `last_seen := now`,
`sources := list(set(existing.sources + incoming.sources))` (set semantics,
modelled as `dedup` of the concatenation), and
`threat_score := max(existing, incoming)`.  Every other field of the existing
document (`classification`, `tags`, `source_details`, `timestamp`, …) is left
untouched. -/
def merge_ioc (r : Record) (now : ℕ) (o : Obs) : Record :=
  { r with
    last_seen := now
    sources := (r.sources ++ o.sources).dedup
    threat_score := max r.threat_score o.threat_score }

/-- The insert branch of `store_ioc` (database.py lines 36-42): the incoming
observation becomes a new document with `timestamp = last_seen = now` and
`tags` defaulting to the observation's tags (`ioc_data.get("tags", [])`). -/
def insert_ioc (now : ℕ) (o : Obs) : Record :=
  { value := o.value
    type := o.type
    threat_score := o.threat_score
    classification := o.classification
    sources := o.sources
    tags := o.tags
    source_details := o.source_details
    description := o.description
    timestamp := now
    last_seen := now }

/-- `DatabaseService.store_ioc` (database.py lines 20-42): look up the first
document with the observation's `(value, type)` key; if found, update it in
place via `merge_ioc`; otherwise append a fresh document. -/
def store_ioc (db : Db) (now : ℕ) (o : Obs) : Db :=
  match db with
  | [] => [insert_ioc now o]
  | r :: rest =>
    if keyMatch r o.value o.type then
      merge_ioc r now o :: rest
    else
      r :: store_ioc rest now o

/-- A sequence of `store_ioc` calls, each with its own arrival time. -/
def storeAll (db : Db) (l : List (ℕ × Obs)) : Db :=
  l.foldl (fun d p => store_ioc d p.1 p.2) db

/-- `DatabaseService.update_ioc_tags` (database.py lines 80-87): `update_one`
by document identity with `$set {"tags": tags}` — the document at position `i`
gets its `tags` field replaced by the given list. -/
def update_ioc_tags (db : Db) (i : ℕ) (tags : List String) : Db :=
  match db[i]? with
  | some r => db.set i { r with tags := tags }
  | none => db

/-- `ThreatIntelService._classify_threat_score` (threat_intel.py lines
145-156): the classification tier of a normalized score. -/
def classify_threat_score (s : ℚ) : String :=
  if s ≥ 80 then "critical"
  else if s ≥ 60 then "high"
  else if s ≥ 30 then "medium"
  else if s > 0 then "low"
  else "clean"

/-- The raw score argument of `normalize_threat_score`: either a plain number
or a VirusTotal-style detection-ratio dictionary
`{"positives": p, "total": t}`. -/
inductive RawScore where
  | num (x : ℚ)
  | dict (positives total : ℚ)
deriving DecidableEq, Repr

/-- `ThreatIntelService.normalize_threat_score` (threat_intel.py lines
21-35).  For `"virustotal"` a dict argument yields
`min(100, positives/total*100)` when `total > 0` and `0` otherwise, and a
numeric argument yields `min(100, score)`; `"abuseipdb"` and every other
source apply `min(100, score)` to a numeric argument.  A dict argument for a
non-VirusTotal source would make Python's `min(100, score)` raise a
`TypeError`, modelled as `none`. -/
def normalize_threat_score (source : String) (score : RawScore) : Option ℚ :=
  if source == "virustotal" then
    match score with
    | .dict p t => some (if t > 0 then min 100 (p / t * 100) else 0)
    | .num x => some (min 100 x)
  else
    match score with
    | .num x => some (min 100 x)
    | .dict _ _ => none

/-- The cache-freshness test of `lookup_ioc` (threat_intel.py line 164):
`(datetime.utcnow() - cached["last_seen"]).seconds < 3600`.  Python's
`timedelta.seconds` is the seconds *component* of the normalized timedelta:
for a non-negative difference of `d` whole seconds it equals `d % 86400`. -/
def cache_is_fresh (now last_seen : ℕ) : Bool :=
  (now - last_seen) % 86400 < 3600

/-- Whether `lookup_ioc` (threat_intel.py lines 158-165) takes the early
cached-return path for a given collection state and key: a cached record
exists and passes `cache_is_fresh`. -/
def lookup_uses_cache (db : Db) (now : ℕ) (v k : String) : Bool :=
  match get_ioc db v k with
  | some r => cache_is_fresh now r.last_seen
  | none => false

/-- Number of external source calls `lookup_ioc` performs (threat_intel.py
lines 167-182): zero on the cached path; otherwise VirusTotal and AbuseIPDB
for an `"ip"` (two calls), VirusTotal alone for a `"domain"` (one call), and
none for any other kind. -/
def lookup_source_calls (db : Db) (now : ℕ) (v k : String) : ℕ :=
  if lookup_uses_cache db now v k then 0
  else if k == "ip" then 2
  else if k == "domain" then 1
  else 0

/-- One monitoring cycle's observation loop,
`RealtimeFeedService._simulate_threat_detection` (realtime_feeds.py lines
76-102) as called from `_monitor_threats` (lines 56-74).  Each slot of the
cycle is either a successfully generated observation (`some o`) or an
injected fault (`none`, an exception raised while processing that
observation).  The Python loop has no per-observation handler: the first
exception propagates out of `_simulate_threat_detection` into the cycle-level
`except` of `_monitor_threats`, so the remaining observations are not stored
and `_update_live_stats` (the stats recompute) does not run that cycle.
Returns the collection after the cycle and whether the stats recompute
ran. -/
def monitor_cycle (db : Db) (now : ℕ) (obs : List (Option Obs)) : Db × Bool :=
  match obs with
  | [] => (db, true)
  | none :: _ => (db, false)
  | some o :: rest => monitor_cycle (store_ioc db now o) now rest

/-- Number of records in the collection carrying a given `(value, type)`
key. -/
def keyCount (db : Db) (v k : String) : ℕ :=
  db.countP (fun r => keyMatch r v k)

/-- The result of merging a whole sequence of timed observations into one
existing record — what `store_ioc` does to the single record of a singleton
collection when every observation carries that record's key. -/
def mergeFold (r : Record) (l : List (ℕ × Obs)) : Record :=
  l.foldl (fun acc p => merge_ioc acc p.1 p.2) r

/-! ### Concrete inputs used by the claim checks -/

/-- A first observation of `203.0.113.9`, score 10, classified
`classify(10) = "low"` exactly as `lookup_ioc` builds it. -/
def obsC3low : Obs :=
  { value := "203.0.113.9", type := "ip", threat_score := 10
    classification := "low", sources := ["virustotal"], tags := []
    source_details := [⟨"virustotal", 10, "low"⟩]
    description := "IP: 203.0.113.9" }

/-- A later observation of the same indicator, score 90, classified
`classify(90) = "critical"`. -/
def obsC3high : Obs :=
  { value := "203.0.113.9", type := "ip", threat_score := 90
    classification := "critical", sources := ["abuseipdb"], tags := []
    source_details := [⟨"abuseipdb", 90, "critical"⟩]
    description := "IP: 203.0.113.9" }

/-- A cached record for `198.51.100.7` whose `last_seen` is time 0. -/
def recC7 : Record :=
  { value := "198.51.100.7", type := "ip", threat_score := 90
    classification := "critical", sources := ["abuseipdb"], tags := []
    source_details := [], description := "IP: 198.51.100.7"
    timestamp := 0, last_seen := 0 }

/-- Observation #1 of the three-observation cycle used for the cycle-isolation
check. -/
def obsC8a : Obs :=
  { value := "198.51.100.1", type := "ip", threat_score := 70
    classification := "high", sources := ["honeypot"], tags := ["malware"]
    source_details := [], description := "Malicious IP detected by honeypot" }

/-- Observation #3 of that cycle. -/
def obsC8c : Obs :=
  { value := "198.51.100.3", type := "ip", threat_score := 85
    classification := "critical", sources := ["network_monitor"]
    tags := ["botnet"], source_details := []
    description := "Botnet C2 server detected by network_monitor" }

/-- An existing malware-domain record with one tag and one stored snapshot,
used to exercise the merge branch. -/
def recC4 : Record :=
  { value := "malware-host7.com", type := "domain", threat_score := 40
    classification := "medium", sources := ["email_filter"]
    tags := ["malware"], source_details := [⟨"email_filter", 40, "medium"⟩]
    description := "Malicious domain detected by email_filter"
    timestamp := 0, last_seen := 0 }

/-- An incoming observation for the same domain, carrying a new tag and a new
snapshot. -/
def obsC4 : Obs :=
  { value := "malware-host7.com", type := "domain", threat_score := 55
    classification := "medium", sources := ["dns_sinkhole"]
    tags := ["phishing"], source_details := [⟨"dns_sinkhole", 55, "medium"⟩]
    description := "Malicious domain detected by dns_sinkhole" }

/-- A stored record carrying the single tag `"apt"`, used to exercise
`update_ioc_tags`. -/
def recC9 : Record :=
  { value := "203.0.113.77", type := "ip", threat_score := 88
    classification := "critical", sources := ["network_monitor"]
    tags := ["apt"], source_details := [], description := "IP: 203.0.113.77"
    timestamp := 0, last_seen := 0 }

/-- First observation of the end-to-end pair: source A, score 90. -/
def obsA : Obs :=
  { value := "198.51.100.7", type := "ip", threat_score := 90
    classification := "critical", sources := ["sourceA"], tags := []
    source_details := [⟨"sourceA", 90, "critical"⟩]
    description := "IP: 198.51.100.7" }

/-- Second observation of the same key: source B, score 30. -/
def obsB : Obs :=
  { value := "198.51.100.7", type := "ip", threat_score := 30
    classification := "medium", sources := ["sourceB"], tags := []
    source_details := [⟨"sourceB", 30, "medium"⟩]
    description := "IP: 198.51.100.7" }

/-! ## Basic facts about the merge -/

theorem merge_ioc_value (r : Record) (now : ℕ) (o : Obs) :
    (merge_ioc r now o).value = r.value := rfl

theorem merge_ioc_type (r : Record) (now : ℕ) (o : Obs) :
    (merge_ioc r now o).type = r.type := rfl

theorem merge_ioc_score (r : Record) (now : ℕ) (o : Obs) :
    (merge_ioc r now o).threat_score = max r.threat_score o.threat_score := rfl

theorem store_ioc_cons_match (r : Record) (rest : Db) (now : ℕ) (o : Obs)
    (h : keyMatch r o.value o.type = true) :
    store_ioc (r :: rest) now o = merge_ioc r now o :: rest := by
  simp [store_ioc, h]

theorem store_ioc_cons_nomatch (r : Record) (rest : Db) (now : ℕ) (o : Obs)
    (h : keyMatch r o.value o.type = false) :
    store_ioc (r :: rest) now o = r :: store_ioc rest now o := by
  simp [store_ioc, h]

theorem keyMatch_of_eq (r : Record) (v k : String) (hv : r.value = v)
    (hk : r.type = k) : keyMatch r v k = true := by
  simp [keyMatch, hv, hk]

theorem keyMatch_eq (r : Record) (v k : String) (h : keyMatch r v k = true) :
    r.value = v ∧ r.type = k := by
  simpa [keyMatch] using h

theorem storeAll_cons (db : Db) (p : ℕ × Obs) (l : List (ℕ × Obs)) :
    storeAll db (p :: l) = storeAll (store_ioc db p.1 p.2) l := rfl

theorem mergeFold_cons (r : Record) (p : ℕ × Obs) (l : List (ℕ × Obs)) :
    mergeFold r (p :: l) = mergeFold (merge_ioc r p.1 p.2) l := rfl

theorem mergeFold_value (r : Record) (l : List (ℕ × Obs)) :
    (mergeFold r l).value = r.value := by
  induction l generalizing r with
  | nil => rfl
  | cons p l ih => rw [mergeFold_cons, ih, merge_ioc_value]

theorem mergeFold_type (r : Record) (l : List (ℕ × Obs)) :
    (mergeFold r l).type = r.type := by
  induction l generalizing r with
  | nil => rfl
  | cons p l ih => rw [mergeFold_cons, ih, merge_ioc_type]

/-- Storing a sequence of observations that all carry the key of the single
existing record folds them into that record one merge at a time. -/
theorem storeAll_singleton (v k : String) (r : Record) (l : List (ℕ × Obs))
    (hv : r.value = v) (hk : r.type = k)
    (hl : ∀ p ∈ l, (p.2 : Obs).value = v ∧ (p.2 : Obs).type = k) :
    storeAll [r] l = [mergeFold r l] := by
  induction l generalizing r with
  | nil => rfl
  | cons p l ih =>
    have hp := hl p (List.mem_cons_self p l)
    have hm : keyMatch r p.2.value p.2.type = true :=
      keyMatch_of_eq r _ _ (hv.trans hp.1.symm) (hk.trans hp.2.symm)
    rw [storeAll_cons, store_ioc_cons_match r [] p.1 p.2 hm, mergeFold_cons]
    exact ih (merge_ioc r p.1 p.2) (by rw [merge_ioc_value]; exact hv)
      (by rw [merge_ioc_type]; exact hk)
      (fun q hq => hl q (List.mem_cons_of_mem p hq))

theorem mergeFold_score_ge_init (r : Record) (l : List (ℕ × Obs)) :
    r.threat_score ≤ (mergeFold r l).threat_score := by
  induction l generalizing r with
  | nil => exact le_refl _
  | cons p l ih =>
    rw [mergeFold_cons]
    exact le_trans (le_max_left _ _) (ih (merge_ioc r p.1 p.2))

theorem mergeFold_score_ub (r : Record) (l : List (ℕ × Obs)) :
    ∀ p ∈ l, (p.2 : Obs).threat_score ≤ (mergeFold r l).threat_score := by
  induction l generalizing r with
  | nil => intro p hp; cases hp
  | cons q l ih =>
    intro p hp
    rw [mergeFold_cons]
    rcases List.mem_cons.mp hp with h | h
    · subst h
      exact le_trans (le_max_right _ _)
        (mergeFold_score_ge_init (merge_ioc r p.1 p.2) l)
    · exact ih (merge_ioc r q.1 q.2) p h

theorem mergeFold_score_attained (r : Record) (l : List (ℕ × Obs)) :
    (mergeFold r l).threat_score = r.threat_score ∨
      ∃ p ∈ l, (mergeFold r l).threat_score = (p.2 : Obs).threat_score := by
  induction l generalizing r with
  | nil => exact Or.inl rfl
  | cons q l ih =>
    rw [mergeFold_cons]
    rcases ih (merge_ioc r q.1 q.2) with h | ⟨p, hp, h⟩
    · rw [h, merge_ioc_score]
      rcases max_choice r.threat_score q.2.threat_score with hm | hm
      · exact Or.inl hm
      · exact Or.inr ⟨q, List.mem_cons_self q l, hm⟩
    · exact Or.inr ⟨p, List.mem_cons_of_mem q hp, h⟩

theorem get_ioc_singleton (r : Record) (v k : String)
    (h : keyMatch r v k = true) : get_ioc [r] v k = some r := by
  simp [get_ioc, List.find?, h]

/-! ## C6 / C10: classification -/

/-- C6: `classify` is deterministic with inclusive upper-tier boundaries:
score ≥ 80 is critical, 60 ≤ score < 80 is high, 30 ≤ score < 60 is medium,
0 < score < 30 is low, score = 0 is clean; the nine boundary samples evaluate
as the spec lists them. -/
theorem classify_threat_score_tiers (s : ℚ) :
    (80 ≤ s → classify_threat_score s = "critical") ∧
    (60 ≤ s → s < 80 → classify_threat_score s = "high") ∧
    (30 ≤ s → s < 60 → classify_threat_score s = "medium") ∧
    (0 < s → s < 30 → classify_threat_score s = "low") ∧
    (s = 0 → classify_threat_score s = "clean") ∧
    (classify_threat_score 0 = "clean" ∧ classify_threat_score 1 = "low" ∧
     classify_threat_score 29 = "low" ∧ classify_threat_score 30 = "medium" ∧
     classify_threat_score 59 = "medium" ∧ classify_threat_score 60 = "high" ∧
     classify_threat_score 79 = "high" ∧ classify_threat_score 80 = "critical" ∧
     classify_threat_score 100 = "critical") := by
  unfold classify_threat_score
  refine ⟨fun h => ?_, fun h1 h2 => ?_, fun h1 h2 => ?_, fun h1 h2 => ?_,
    fun h => ?_, by norm_num⟩
  · rw [if_pos h]
  · rw [if_neg (by linarith), if_pos h1]
  · rw [if_neg (by linarith), if_neg (by linarith), if_pos h1]
  · rw [if_neg (by linarith), if_neg (by linarith), if_neg (by linarith),
      if_pos h1]
  · subst h; norm_num

theorem classify_threat_score_tiers_witness :
    classify_threat_score 80 = "critical" ∧ classify_threat_score 60 = "high" ∧
    classify_threat_score 30 = "medium" ∧ classify_threat_score 1 = "low" ∧
    classify_threat_score 0 = "clean" :=
  ⟨(classify_threat_score_tiers 80).1 (by norm_num),
   (classify_threat_score_tiers 60).2.1 (by norm_num) (by norm_num),
   (classify_threat_score_tiers 30).2.2.1 (by norm_num) (by norm_num),
   (classify_threat_score_tiers 1).2.2.2.1 (by norm_num) (by norm_num),
   (classify_threat_score_tiers 0).2.2.2.2.1 rfl⟩

/-- C10: `classify` is total — every score lands in exactly one of the five
tiers — and every score ≤ 0 (negative scores included) is "clean"; moreover a
negative numeric score passes through `normalize_threat_score` unchanged for
any source (the fallback has no lower clamp). -/
theorem classify_threat_score_total (s : ℚ) :
    (classify_threat_score s = "critical" ∨ classify_threat_score s = "high" ∨
     classify_threat_score s = "medium" ∨ classify_threat_score s = "low" ∨
     classify_threat_score s = "clean") ∧
    (s ≤ 0 → classify_threat_score s = "clean") ∧
    (∀ source : String, s < 0 →
      normalize_threat_score source (.num s) = some s) := by
  refine ⟨?_, fun h => ?_, fun source h => ?_⟩
  · unfold classify_threat_score
    split
    · exact Or.inl rfl
    split
    · exact Or.inr (Or.inl rfl)
    split
    · exact Or.inr (Or.inr (Or.inl rfl))
    split
    · exact Or.inr (Or.inr (Or.inr (Or.inl rfl)))
    · exact Or.inr (Or.inr (Or.inr (Or.inr rfl)))
  · unfold classify_threat_score
    rw [if_neg (by linarith), if_neg (by linarith), if_neg (by linarith),
      if_neg (by linarith)]
  · unfold normalize_threat_score
    have hmin : min (100 : ℚ) s = s := min_eq_right (by linarith)
    by_cases hs : source == "virustotal" <;> simp [hs, hmin]

theorem classify_threat_score_total_witness :
    (classify_threat_score (-7) = "critical" ∨
     classify_threat_score (-7) = "high" ∨
     classify_threat_score (-7) = "medium" ∨
     classify_threat_score (-7) = "low" ∨
     classify_threat_score (-7) = "clean") ∧
    classify_threat_score (-7) = "clean" ∧
    normalize_threat_score "honeypot" (.num (-7)) = some (-7) :=
  ⟨(classify_threat_score_total (-7)).1,
   (classify_threat_score_total (-7)).2.1 (by norm_num),
   (classify_threat_score_total (-7)).2.2 "honeypot" (by norm_num)⟩

/-! ## C5: score normalization -/

/-- C5 counterexample: the claim says `normalize_threat_score` always returns
an integer in `[0,100]`, rounds the detection ratio, and clamps unrecognized
numeric input at both ends.  On the code: an unrecognized source with input
`-5` returns `-5` (below 0, no lower clamp), and the VirusTotal ratio `1/3`
returns `100/3`, which is not the integer `round(100/3) = 33`. -/
theorem normalize_threat_score_counterexample :
    normalize_threat_score "honeypot" (.num (-5)) = some (-5) ∧
    ¬ (0 : ℚ) ≤ -5 ∧
    normalize_threat_score "virustotal" (.dict 1 3) = some (100 / 3) ∧
    (100 / 3 : ℚ) ≠ 33 ∧ ¬ (∃ n : ℤ, (100 / 3 : ℚ) = n) := by
  refine ⟨?_, by norm_num, ?_, by norm_num, ?_⟩
  · norm_num [normalize_threat_score]
  · norm_num [normalize_threat_score]
  · rintro ⟨n, hn⟩
    have h3 : (3 : ℚ) * (n : ℚ) = 100 := by
      field_simp at hn
      linarith
    have : (3 * n : ℤ) = 100 := by exact_mod_cast h3
    omega

/-- C5 amended: `normalize_threat_score` returns, for any source, a numeric
input clamped **above** at 100 (`min(100, score)` — no lower clamp, no
rounding); for VirusTotal a ratio input yields the exact (unrounded) value
`min(100, positives/total·100)` when `total > 0` and `0` otherwise; a ratio
input for any other source is a type error (`none`).  Consequently the result
of a numeric input lies in `[0,100]` whenever the input is non-negative. -/
theorem normalize_threat_score_amended (source : String) (x p t : ℚ) :
    normalize_threat_score source (.num x) = some (min 100 x) ∧
    normalize_threat_score "virustotal" (.dict p t) =
      some (if t > 0 then min 100 (p / t * 100) else 0) ∧
    (source ≠ "virustotal" → normalize_threat_score source (.dict p t) = none) ∧
    (0 ≤ x → 0 ≤ min (100 : ℚ) x ∧ min (100 : ℚ) x ≤ 100) := by
  refine ⟨?_, ?_, fun h => ?_, fun h => ⟨le_min (by norm_num) h, min_le_left _ _⟩⟩
  · by_cases hs : source = "virustotal" <;> simp [normalize_threat_score, hs]
  · simp [normalize_threat_score]
  · simp [normalize_threat_score, h]

/-! ## C3: classification staleness across merges -/

/-- C3 (code bug): after a `store_ioc` merge raises `threat_score` from 10 to
90, the stored record still carries `classification = "low"` — the merge's
`$set` never recomputes the classification, while
`classify(90) = "critical"`. -/
theorem store_ioc_stale_classification :
    ((get_ioc (store_ioc (store_ioc [] 0 obsC3low) 5 obsC3high)
        "203.0.113.9" "ip").map
      (fun r => (r.threat_score, r.classification)) = some (90, "low")) ∧
    classify_threat_score 90 = "critical" ∧ ("low" : String) ≠ "critical" := by
  refine ⟨by decide, by norm_num [classify_threat_score], by decide⟩

/-! ## C7: cache freshness in `lookup_ioc` -/

/-- C7 (code bug): a cached record exactly 24 hours old (86400 s ≥ 3600 s, so
the claim requires a source fan-out) is still served from cache with zero
external calls, because `timedelta.seconds` is the day-relative seconds
component: `86400 % 86400 = 0 < 3600`. -/
theorem lookup_ioc_stale_cache_hit :
    lookup_uses_cache [recC7] 86400 "198.51.100.7" "ip" = true ∧
    lookup_source_calls [recC7] 86400 "198.51.100.7" "ip" = 0 ∧
    3600 ≤ 86400 - recC7.last_seen := by
  refine ⟨by decide, by decide, by decide⟩

/-! ## C8: cycle isolation in the feed monitor -/

/-- C8 (code bug): in a cycle of three observations where #2 raises, the
monitor records #1 but aborts before #3 — #3 is not stored — and the
cycle's stats recompute does not run (the exception is only caught at the
whole-cycle level in `_monitor_threats`). -/
theorem monitor_cycle_fault_aborts_cycle :
    (monitor_cycle [] 7 [some obsC8a, none, some obsC8c]).2 = false ∧
    (get_ioc (monitor_cycle [] 7 [some obsC8a, none, some obsC8c]).1
      "198.51.100.1" "ip").isSome = true ∧
    get_ioc (monitor_cycle [] 7 [some obsC8a, none, some obsC8c]).1
      "198.51.100.3" "ip" = none := by
  refine ⟨by decide, by decide, by decide⟩

/-! ## C1: merge monotonicity and order independence -/

theorem insert_ioc_value (now : ℕ) (o : Obs) :
    (insert_ioc now o).value = o.value := rfl

theorem insert_ioc_type (now : ℕ) (o : Obs) :
    (insert_ioc now o).type = o.type := rfl

theorem insert_ioc_score (now : ℕ) (o : Obs) :
    (insert_ioc now o).threat_score = o.threat_score := rfl

/-- Storing a nonempty same-key sequence of observations into an empty
collection yields a single retrievable record whose `threat_score` is an
upper bound of all observed scores and is attained by one of them — i.e. it
is exactly `max(s1..sn)`. -/
theorem storeAll_empty_score_spec (v k : String) (l : List (ℕ × Obs))
    (hne : l ≠ [])
    (hl : ∀ p ∈ l, (p.2 : Obs).value = v ∧ (p.2 : Obs).type = k) :
    ∃ r : Record, get_ioc (storeAll [] l) v k = some r ∧
      (∀ p ∈ l, (p.2 : Obs).threat_score ≤ r.threat_score) ∧
      (∃ p ∈ l, r.threat_score = (p.2 : Obs).threat_score) := by
  match l with
  | [] => exact absurd rfl hne
  | p0 :: rest =>
    have h0 := hl p0 (List.mem_cons_self p0 rest)
    have hv0 : (insert_ioc p0.1 p0.2).value = v := by
      rw [insert_ioc_value]; exact h0.1
    have hk0 : (insert_ioc p0.1 p0.2).type = k := by
      rw [insert_ioc_type]; exact h0.2
    have hrest : ∀ p ∈ rest, (p.2 : Obs).value = v ∧ (p.2 : Obs).type = k :=
      fun p hp => hl p (List.mem_cons_of_mem p0 hp)
    have hstep : storeAll [] (p0 :: rest) =
        [mergeFold (insert_ioc p0.1 p0.2) rest] := by
      rw [storeAll_cons]
      exact storeAll_singleton v k _ rest hv0 hk0 hrest
    refine ⟨mergeFold (insert_ioc p0.1 p0.2) rest, ?_, ?_, ?_⟩
    · rw [hstep]
      exact get_ioc_singleton _ v k
        (keyMatch_of_eq _ v k (by rw [mergeFold_value]; exact hv0)
          (by rw [mergeFold_type]; exact hk0))
    · intro p hp
      rcases List.mem_cons.mp hp with h | h
      · subst h
        calc p.2.threat_score = (insert_ioc p.1 p.2).threat_score :=
              (insert_ioc_score p.1 p.2).symm
          _ ≤ _ := mergeFold_score_ge_init _ rest
      · exact mergeFold_score_ub _ rest p h
    · rcases mergeFold_score_attained (insert_ioc p0.1 p0.2) rest with h | ⟨p, hp, h⟩
      · exact ⟨p0, List.mem_cons_self p0 rest, by rw [h, insert_ioc_score]⟩
      · exact ⟨p, List.mem_cons_of_mem p0 hp, h⟩

/-- C1: for a same-key sequence of observations with scores s1..sn stored via
`store_ioc` into an empty collection, the final `threat_score` is
`max(s1..sn)` (an upper bound of every score and attained by one of them);
it is the same for every permutation of the arrival order; and each single
merge sets the score to `max(existing, incoming)`, so it never lowers it. -/
theorem store_ioc_merge_monotone_max (v k : String) (l : List (ℕ × Obs))
    (hne : l ≠ [])
    (hl : ∀ p ∈ l, (p.2 : Obs).value = v ∧ (p.2 : Obs).type = k) :
    (∃ r : Record, get_ioc (storeAll [] l) v k = some r ∧
       (∀ p ∈ l, (p.2 : Obs).threat_score ≤ r.threat_score) ∧
       (∃ p ∈ l, r.threat_score = (p.2 : Obs).threat_score)) ∧
    (∀ l2 : List (ℕ × Obs), l.Perm l2 →
       ∀ r r2 : Record, get_ioc (storeAll [] l) v k = some r →
         get_ioc (storeAll [] l2) v k = some r2 →
         r.threat_score = r2.threat_score) ∧
    (∀ (r : Record) (now : ℕ) (o : Obs),
       (merge_ioc r now o).threat_score = max r.threat_score o.threat_score ∧
       r.threat_score ≤ (merge_ioc r now o).threat_score) := by
  refine ⟨storeAll_empty_score_spec v k l hne hl, ?_, fun r now o =>
    ⟨merge_ioc_score r now o, by rw [merge_ioc_score]; exact le_max_left _ _⟩⟩
  intro l2 hperm r r2 h1 h2
  have hne2 : l2 ≠ [] := by
    intro h
    subst h
    exact hne hperm.eq_nil
  have hl2 : ∀ p ∈ l2, (p.2 : Obs).value = v ∧ (p.2 : Obs).type = k :=
    fun p hp => hl p (hperm.mem_iff.mpr hp)
  obtain ⟨ra, hga, huba, pa, hpa, hatta⟩ :=
    storeAll_empty_score_spec v k l hne hl
  obtain ⟨rb, hgb, hubb, pb, hpb, hattb⟩ :=
    storeAll_empty_score_spec v k l2 hne2 hl2
  have hra : r = ra := Option.some.inj (h1.symm.trans hga)
  have hrb : r2 = rb := Option.some.inj (h2.symm.trans hgb)
  subst hra hrb
  apply le_antisymm
  · rw [hatta]
    exact hubb pa (hperm.mem_iff.mp hpa)
  · rw [hattb]
    exact huba pb (hperm.mem_iff.mpr hpb)

theorem store_ioc_merge_monotone_max_witness :
    (∃ r : Record,
       get_ioc (storeAll [] [(0, obsA), (5, obsB)]) "198.51.100.7" "ip" =
         some r ∧
       (∀ p ∈ [(0, obsA), (5, obsB)],
         (p.2 : Obs).threat_score ≤ r.threat_score) ∧
       (∃ p ∈ [(0, obsA), (5, obsB)],
         r.threat_score = (p.2 : Obs).threat_score)) ∧
    (∀ l2 : List (ℕ × Obs), List.Perm [(0, obsA), (5, obsB)] l2 →
       ∀ r r2 : Record,
         get_ioc (storeAll [] [(0, obsA), (5, obsB)]) "198.51.100.7" "ip" =
           some r →
         get_ioc (storeAll [] l2) "198.51.100.7" "ip" = some r2 →
         r.threat_score = r2.threat_score) ∧
    (∀ (r : Record) (now : ℕ) (o : Obs),
       (merge_ioc r now o).threat_score = max r.threat_score o.threat_score ∧
       r.threat_score ≤ (merge_ioc r now o).threat_score) :=
  store_ioc_merge_monotone_max "198.51.100.7" "ip" [(0, obsA), (5, obsB)]
    (by decide) (by decide)

/-! ## C2: uniqueness of the canonical record and source accumulation -/

theorem store_ioc_of_no_match (db : Db) (now : ℕ) (o : Obs)
    (h : ∀ r ∈ db, keyMatch r o.value o.type = false) :
    store_ioc db now o = db ++ [insert_ioc now o] := by
  induction db with
  | nil => rfl
  | cons r rest ih =>
    rw [store_ioc_cons_nomatch r rest now o (h r (List.mem_cons_self r rest)),
      ih (fun q hq => h q (List.mem_cons_of_mem r hq))]
    rfl

theorem get_ioc_eq_none_iff (db : Db) (v k : String) :
    get_ioc db v k = none ↔ ∀ r ∈ db, keyMatch r v k = false := by
  unfold get_ioc
  rw [List.find?_eq_none]
  constructor
  · intro h r hr
    exact Bool.not_eq_true _ ▸ (by simpa using h r hr)
  · intro h r hr
    simp [h r hr]

theorem store_ioc_key_present (db : Db) (now : ℕ) (o : Obs) :
    ∃ r ∈ store_ioc db now o, keyMatch r o.value o.type = true := by
  induction db with
  | nil =>
    exact ⟨insert_ioc now o, List.mem_singleton.mpr rfl,
      keyMatch_of_eq _ _ _ rfl rfl⟩
  | cons r rest ih =>
    by_cases h : keyMatch r o.value o.type = true
    · rw [store_ioc_cons_match r rest now o h]
      refine ⟨merge_ioc r now o, List.mem_cons_self _ _, ?_⟩
      have := keyMatch_eq r _ _ h
      exact keyMatch_of_eq _ _ _ ((merge_ioc_value r now o).trans this.1)
        ((merge_ioc_type r now o).trans this.2)
    · rw [store_ioc_cons_nomatch r rest now o (Bool.not_eq_true _ ▸ h)]
      obtain ⟨q, hq, hqm⟩ := ih
      exact ⟨q, List.mem_cons_of_mem r hq, hqm⟩

theorem store_ioc_length_of_match (db : Db) (now : ℕ) (o : Obs)
    (h : ∃ r ∈ db, keyMatch r o.value o.type = true) :
    (store_ioc db now o).length = db.length := by
  induction db with
  | nil => obtain ⟨r, hr, _⟩ := h; cases hr
  | cons r rest ih =>
    by_cases hm : keyMatch r o.value o.type = true
    · rw [store_ioc_cons_match r rest now o hm]
      simp
    · rw [store_ioc_cons_nomatch r rest now o (Bool.not_eq_true _ ▸ hm)]
      obtain ⟨q, hq, hqm⟩ := h
      rcases List.mem_cons.mp hq with hq' | hq'
      · exact absurd (hq' ▸ hqm) hm
      · simpa using ih ⟨q, hq', hqm⟩

theorem store_ioc_keyCount (db : Db) (now : ℕ) (o : Obs) (v k : String)
    (hv : o.value = v) (hk : o.type = k) :
    keyCount (store_ioc db now o) v k = max 1 (keyCount db v k) := by
  induction db with
  | nil =>
    simp [store_ioc, keyCount, List.countP,
      keyMatch_of_eq (insert_ioc now o) v k hv hk, List.countP.go]
  | cons r rest ih =>
    by_cases hm : keyMatch r o.value o.type = true
    · rw [store_ioc_cons_match r rest now o hm]
      have hr := keyMatch_eq r _ _ hm
      have hrvk : keyMatch r v k = true :=
        keyMatch_of_eq r v k (hr.1.trans hv) (hr.2.trans hk)
      have hmvk : keyMatch (merge_ioc r now o) v k = true :=
        keyMatch_of_eq _ v k ((merge_ioc_value r now o).trans (hr.1.trans hv))
          ((merge_ioc_type r now o).trans (hr.2.trans hk))
      unfold keyCount
      rw [List.countP_cons_of_pos (fun q => keyMatch q v k) rest hmvk,
        List.countP_cons_of_pos (fun q => keyMatch q v k) rest hrvk]
      omega
    · rw [store_ioc_cons_nomatch r rest now o (Bool.not_eq_true _ ▸ hm)]
      by_cases hrvk : keyMatch r v k = true
      · exact absurd (keyMatch_of_eq r o.value o.type
          ((keyMatch_eq r v k hrvk).1.trans hv.symm)
          ((keyMatch_eq r v k hrvk).2.trans hk.symm)) hm
      · unfold keyCount
        rw [List.countP_cons_of_neg (fun q => keyMatch q v k)
            (store_ioc rest now o) hrvk,
          List.countP_cons_of_neg (fun q => keyMatch q v k) rest hrvk]
        exact ih

theorem store_ioc_append_match (db1 : Db) (r : Record) (now : ℕ) (o : Obs)
    (h : ∀ q ∈ db1, keyMatch q o.value o.type = false)
    (hr : keyMatch r o.value o.type = true) :
    store_ioc (db1 ++ [r]) now o = db1 ++ [merge_ioc r now o] := by
  induction db1 with
  | nil => simp [store_ioc, hr]
  | cons q rest ih =>
    rw [List.cons_append,
      store_ioc_cons_nomatch q _ now o (h q (List.mem_cons_self q rest)),
      ih (fun q' hq' => h q' (List.mem_cons_of_mem q hq')), List.cons_append]

theorem get_ioc_append_last (db1 : Db) (r : Record) (v k : String)
    (h : ∀ q ∈ db1, keyMatch q v k = false) (hr : keyMatch r v k = true) :
    get_ioc (db1 ++ [r]) v k = some r := by
  induction db1 with
  | nil => exact get_ioc_singleton r v k hr
  | cons q rest ih =>
    unfold get_ioc at ih ⊢
    rw [List.cons_append, List.find?_cons_of_neg]
    · exact ih (fun q' hq' => h q' (List.mem_cons_of_mem q hq'))
    · simp [h q (List.mem_cons_self q rest)]

/-- C2: two observations with the same `(value, kind)` key never yield two
canonical records — the second `store_ioc` is a merge, not an insert (the
collection keeps exactly one record with that key, and its length does not
grow) — and for a previously unseen key the resulting record's `sources` is
the set union of the two observations' sources. -/
theorem store_ioc_unique_sources_union (db : Db) (n1 n2 : ℕ) (o1 o2 : Obs)
    (v k : String) (h1v : o1.value = v) (h1k : o1.type = k)
    (h2v : o2.value = v) (h2k : o2.type = k) :
    (keyCount db v k ≤ 1 →
       keyCount (store_ioc (store_ioc db n1 o1) n2 o2) v k = 1) ∧
    (store_ioc (store_ioc db n1 o1) n2 o2).length =
      (store_ioc db n1 o1).length ∧
    (get_ioc db v k = none →
       ∃ r : Record,
         get_ioc (store_ioc (store_ioc db n1 o1) n2 o2) v k = some r ∧
         ∀ x : String, x ∈ r.sources ↔ x ∈ o1.sources ∨ x ∈ o2.sources) := by
  refine ⟨fun hdb => ?_, ?_, fun hnone => ?_⟩
  · rw [store_ioc_keyCount _ n2 o2 v k h2v h2k,
      store_ioc_keyCount db n1 o1 v k h1v h1k]
    omega
  · apply store_ioc_length_of_match
    obtain ⟨r, hr, hm⟩ := store_ioc_key_present db n1 o1
    have h := keyMatch_eq r _ _ hm
    exact ⟨r, hr, keyMatch_of_eq r _ _ (h.1.trans (h1v.trans h2v.symm))
      (h.2.trans (h1k.trans h2k.symm))⟩
  · have hall : ∀ r ∈ db, keyMatch r v k = false :=
      (get_ioc_eq_none_iff db v k).mp hnone
    have hall1 : ∀ r ∈ db, keyMatch r o1.value o1.type = false := by
      intro r hr; rw [h1v, h1k]; exact hall r hr
    have hall2 : ∀ r ∈ db, keyMatch r o2.value o2.type = false := by
      intro r hr; rw [h2v, h2k]; exact hall r hr
    rw [store_ioc_of_no_match db n1 o1 hall1]
    have hins : keyMatch (insert_ioc n1 o1) o2.value o2.type = true :=
      keyMatch_of_eq _ _ _
        ((insert_ioc_value n1 o1).trans (h1v.trans h2v.symm))
        ((insert_ioc_type n1 o1).trans (h1k.trans h2k.symm))
    rw [store_ioc_append_match db _ n2 o2 hall2 hins]
    refine ⟨merge_ioc (insert_ioc n1 o1) n2 o2, ?_, fun x => ?_⟩
    · exact get_ioc_append_last db _ v k hall
        (keyMatch_of_eq _ v k
          (((merge_ioc_value _ n2 o2).trans (insert_ioc_value n1 o1)).trans h1v)
          (((merge_ioc_type _ n2 o2).trans (insert_ioc_type n1 o1)).trans h1k))
    · show x ∈ ((insert_ioc n1 o1).sources ++ o2.sources).dedup ↔ _
      rw [List.mem_dedup, List.mem_append]
      exact Iff.rfl

theorem store_ioc_unique_sources_union_witness :
    keyCount (store_ioc (store_ioc [] 0 obsA) 5 obsB) "198.51.100.7" "ip" =
      1 ∧
    (store_ioc (store_ioc [] 0 obsA) 5 obsB).length =
      (store_ioc [] 0 obsA).length ∧
    (∃ r : Record,
       get_ioc (store_ioc (store_ioc [] 0 obsA) 5 obsB) "198.51.100.7" "ip" =
         some r ∧
       ∀ x : String, x ∈ r.sources ↔ x ∈ obsA.sources ∨ x ∈ obsB.sources) :=
  ⟨(store_ioc_unique_sources_union [] 0 5 obsA obsB "198.51.100.7" "ip"
      rfl rfl rfl rfl).1 (by decide),
   (store_ioc_unique_sources_union [] 0 5 obsA obsB "198.51.100.7" "ip"
      rfl rfl rfl rfl).2.1,
   (store_ioc_unique_sources_union [] 0 5 obsA obsB "198.51.100.7" "ip"
      rfl rfl rfl rfl).2.2 (by decide)⟩

/-! ## C4: what a merge actually writes -/

/-- C4 counterexample: the claim says a merge unions the tags and appends the
incoming per-source snapshot.  On the code: merging `obsC4` (tag
`"phishing"`, one snapshot) into the stored record `recC4` (tag
`"malware"`, one snapshot) leaves the record's tags at `["malware"]` — the
incoming tag is dropped — and its snapshot list at length 1 instead of 2. -/
theorem store_ioc_merge_counterexample :
    ((get_ioc (store_ioc [recC4] 5 obsC4) "malware-host7.com" "domain").map
       (fun r => (r.tags, r.source_details.length)) =
      some (["malware"], 1)) ∧
    "phishing" ∈ obsC4.tags ∧
    ("phishing" : String) ∉ (["malware"] : List String) ∧
    obsC4.source_details.length = 1 ∧ recC4.source_details.length = 1 := by
  refine ⟨by decide, by decide, by decide, by decide, by decide⟩

/-- C4 amended: when `store_ioc` hits an existing record, the merge sets
`last_seen := now`, `threat_score := max(existing, incoming)` and unions the
`sources`; it leaves `tags`, `source_details` (the per-source snapshots),
`classification` and `timestamp` untouched — tags are not unioned and the
incoming snapshot is not appended. -/
theorem store_ioc_merge_amended (r : Record) (rest : Db) (now : ℕ) (o : Obs)
    (h : keyMatch r o.value o.type = true) :
    store_ioc (r :: rest) now o = merge_ioc r now o :: rest ∧
    (merge_ioc r now o).last_seen = now ∧
    (merge_ioc r now o).threat_score = max r.threat_score o.threat_score ∧
    (∀ x : String,
       x ∈ (merge_ioc r now o).sources ↔ x ∈ r.sources ∨ x ∈ o.sources) ∧
    (merge_ioc r now o).tags = r.tags ∧
    (merge_ioc r now o).source_details = r.source_details ∧
    (merge_ioc r now o).classification = r.classification ∧
    (merge_ioc r now o).timestamp = r.timestamp := by
  refine ⟨store_ioc_cons_match r rest now o h, rfl, rfl, fun x => ?_,
    rfl, rfl, rfl, rfl⟩
  show x ∈ (r.sources ++ o.sources).dedup ↔ _
  rw [List.mem_dedup, List.mem_append]

theorem store_ioc_merge_amended_witness :
    store_ioc [recC4] 5 obsC4 = merge_ioc recC4 5 obsC4 :: [] ∧
    (merge_ioc recC4 5 obsC4).last_seen = 5 ∧
    (merge_ioc recC4 5 obsC4).threat_score =
      max recC4.threat_score obsC4.threat_score ∧
    (∀ x : String,
       x ∈ (merge_ioc recC4 5 obsC4).sources ↔
         x ∈ recC4.sources ∨ x ∈ obsC4.sources) ∧
    (merge_ioc recC4 5 obsC4).tags = recC4.tags ∧
    (merge_ioc recC4 5 obsC4).source_details = recC4.source_details ∧
    (merge_ioc recC4 5 obsC4).classification = recC4.classification ∧
    (merge_ioc recC4 5 obsC4).timestamp = recC4.timestamp :=
  store_ioc_merge_amended recC4 [] 5 obsC4 (by decide)

/-! ## C9: growth of `sources` and the behaviour of `update_ioc_tags` -/

theorem get_ioc_cons_match (q : Record) (rest : Db) (v k : String)
    (h : keyMatch q v k = true) : get_ioc (q :: rest) v k = some q := by
  unfold get_ioc
  rw [List.find?_cons]
  simp [h]

theorem get_ioc_cons_nomatch (q : Record) (rest : Db) (v k : String)
    (h : keyMatch q v k = false) :
    get_ioc (q :: rest) v k = get_ioc rest v k := by
  unfold get_ioc
  rw [List.find?_cons]
  simp [h]

/-- Across any `store_ioc` write, the record retrievable under any key keeps
every source it already had. -/
theorem store_ioc_sources_superset (db : Db) (now : ℕ) (o : Obs)
    (v k : String) (r r2 : Record) (h1 : get_ioc db v k = some r)
    (h2 : get_ioc (store_ioc db now o) v k = some r2) :
    ∀ x ∈ r.sources, x ∈ r2.sources := by
  induction db with
  | nil => simp [get_ioc] at h1
  | cons q rest ih =>
    by_cases hq : keyMatch q v k = true
    · rw [get_ioc_cons_match q rest v k hq] at h1
      have hr : r = q := (Option.some.inj h1).symm
      by_cases ho : keyMatch q o.value o.type = true
      · rw [store_ioc_cons_match q rest now o ho] at h2
        have hmq : keyMatch (merge_ioc q now o) v k = true := by
          have h := keyMatch_eq q v k hq
          exact keyMatch_of_eq _ v k ((merge_ioc_value q now o).trans h.1)
            ((merge_ioc_type q now o).trans h.2)
        rw [get_ioc_cons_match _ rest v k hmq] at h2
        have hr2 : r2 = merge_ioc q now o := (Option.some.inj h2).symm
        intro x hx
        rw [hr2]
        show x ∈ (q.sources ++ o.sources).dedup
        rw [List.mem_dedup, List.mem_append]
        exact Or.inl (hr ▸ hx)
      · rw [store_ioc_cons_nomatch q rest now o (Bool.not_eq_true _ ▸ ho),
          get_ioc_cons_match q _ v k hq] at h2
        have hr2 : r2 = q := (Option.some.inj h2).symm
        intro x hx
        rw [hr2, ← hr]
        exact hx
    · rw [get_ioc_cons_nomatch q rest v k (Bool.not_eq_true _ ▸ hq)] at h1
      by_cases ho : keyMatch q o.value o.type = true
      · rw [store_ioc_cons_match q rest now o ho] at h2
        have hmq : keyMatch (merge_ioc q now o) v k = false := by
          rcases Bool.eq_false_or_eq_true (keyMatch (merge_ioc q now o) v k)
            with hc | hc
          · exfalso
            have h := keyMatch_eq _ v k hc
            exact hq (keyMatch_of_eq q v k
              ((merge_ioc_value q now o) ▸ h.1)
              ((merge_ioc_type q now o) ▸ h.2))
          · exact hc
        rw [get_ioc_cons_nomatch _ rest v k hmq] at h2
        intro x hx
        have hr : r = r2 := Option.some.inj (h1.symm.trans h2)
        exact hr ▸ hx
      · rw [store_ioc_cons_nomatch q rest now o (Bool.not_eq_true _ ▸ ho),
          get_ioc_cons_nomatch q _ v k (Bool.not_eq_true _ ▸ hq)] at h2
        exact ih h1 h2

theorem update_ioc_tags_cons_zero (q : Record) (rest : Db)
    (tags : List String) :
    update_ioc_tags (q :: rest) 0 tags = { q with tags := tags } :: rest := by
  unfold update_ioc_tags
  simp [List.set]

theorem update_ioc_tags_cons_succ (q : Record) (rest : Db) (i : ℕ)
    (tags : List String) :
    update_ioc_tags (q :: rest) (i + 1) tags =
      q :: update_ioc_tags rest i tags := by
  unfold update_ioc_tags
  simp only [List.getElem?_cons_succ]
  cases h : rest[i]? <;> simp [h, List.set]

/-- C9 counterexample: the claim says tags only grow; `update_ioc_tags` with
an empty list wipes the record's existing `"apt"` tag. -/
theorem update_ioc_tags_counterexample :
    (update_ioc_tags [recC9] 0 []).head?.map (fun r => r.tags) = some [] ∧
    "apt" ∈ recC9.tags ∧ ("apt" : String) ∉ ([] : List String) := by
  refine ⟨by decide, by decide, by decide⟩

/-- C9 amended: `sources` only grow — after any `store_ioc` write the record
retrievable under a key keeps every source it had, and `update_ioc_tags`
leaves every record's `sources` unchanged — but `update_ioc_tags` *replaces*
the record's tags with exactly the given list rather than unioning. -/
theorem update_ioc_tags_replaces (db : Db) (now : ℕ) (o : Obs)
    (v k : String) (r r2 : Record) (i : ℕ) (tags : List String) :
    (get_ioc db v k = some r → get_ioc (store_ioc db now o) v k = some r2 →
       ∀ x ∈ r.sources, x ∈ r2.sources) ∧
    (update_ioc_tags db i tags)[i]? =
      (db[i]?).map (fun q => { q with tags := tags }) ∧
    (∀ j : ℕ, ((update_ioc_tags db i tags)[j]?).map (fun q => q.sources) =
       (db[j]?).map (fun q => q.sources)) := by
  refine ⟨fun h1 h2 => store_ioc_sources_superset db now o v k r r2 h1 h2,
    ?_, ?_⟩
  · induction db generalizing i with
    | nil => simp [update_ioc_tags]
    | cons q rest ih =>
      cases i with
      | zero =>
        rw [update_ioc_tags_cons_zero]
        simp
      | succ i =>
        rw [update_ioc_tags_cons_succ]
        simp only [List.getElem?_cons_succ]
        exact ih i
  · intro j
    induction db generalizing i j with
    | nil => simp [update_ioc_tags]
    | cons q rest ih =>
      cases i with
      | zero =>
        rw [update_ioc_tags_cons_zero]
        cases j with
        | zero => simp
        | succ j => simp
      | succ i =>
        rw [update_ioc_tags_cons_succ]
        cases j with
        | zero => simp
        | succ j =>
          simp only [List.getElem?_cons_succ]
          exact ih i j

theorem update_ioc_tags_replaces_witness :
    (get_ioc [recC9] "203.0.113.77" "ip" = some recC9 →
       get_ioc (store_ioc [recC9] 9 obsA) "203.0.113.77" "ip" = some recC9 →
       ∀ x ∈ recC9.sources, x ∈ recC9.sources) ∧
    (update_ioc_tags [recC9] 0 ["fresh"])[0]? =
      (([recC9] : Db)[0]?).map (fun q => { q with tags := ["fresh"] }) ∧
    (∀ j : ℕ,
       ((update_ioc_tags [recC9] 0 ["fresh"])[j]?).map (fun q => q.sources) =
         (([recC9] : Db)[j]?).map (fun q => q.sources)) :=
  update_ioc_tags_replaces [recC9] 9 obsA "203.0.113.77" "ip" recC9 recC9 0
    ["fresh"]

theorem normalize_threat_score_amended_witness :
    normalize_threat_score "abuseipdb" (.num 150) = some (min 100 150) ∧
    normalize_threat_score "virustotal" (.dict 2 4) =
      some (if (4 : ℚ) > 0 then min 100 (2 / 4 * 100) else 0) ∧
    normalize_threat_score "abuseipdb" (.dict 2 4) = none ∧
    (0 ≤ min (100 : ℚ) 150 ∧ min (100 : ℚ) 150 ≤ 100) :=
  ⟨(normalize_threat_score_amended "abuseipdb" 150 2 4).1,
   (normalize_threat_score_amended "virustotal" 150 2 4).2.1,
   (normalize_threat_score_amended "abuseipdb" 150 2 4).2.2.1 (by decide),
   (normalize_threat_score_amended "abuseipdb" 150 2 4).2.2.2 (by norm_num)⟩

end CTI
